import Mathlib

/-!
Verification of the feed-pagination / cache-aside mechanism of the
Facebook-clone server (`src/server/src/controllers/postController.js`,
`src/server/src/config/redis.js`).

The embedding models the persistent store as lists of rows (posts, follows,
likes, comments), the Redis cache as an optional record of feed entries and
like-count entries (`none` models a down or erroring Redis connection, since
every `redisUtils` helper catches its errors and degrades to a miss / no-op),
and each controller as a pure function over these states.  Post identifiers
and timestamps are natural numbers; the Prisma `orderBy createdAt desc` is
modelled as a (stable) insertion sort by descending `createdAt`.
-/

namespace FbClone

/-- A row of the `Post` table (`prisma.post`): id, author, content,
optional image url, creation time. -/
structure Post where
  id : Nat
  authorId : Nat
  content : String
  imageUrl : Option String
  createdAt : Nat
deriving DecidableEq, Repr

/-- A row of the `Follow` table: `followerId` follows `followingId`. -/
structure Follow where
  followerId : Nat
  followingId : Nat
deriving DecidableEq, Repr

/-- A row of the `Like` table.  The Prisma schema has a unique
`postId_userId` compound key; the row id itself is not needed by the
feed claims, so a like is identified by its `(postId, userId)` pair. -/
structure Like where
  postId : Nat
  userId : Nat
deriving DecidableEq, Repr

/-- A row of the `Comment` table; only its `postId` matters for the
feed's `commentsCount` decoration. -/
structure Comment where
  postId : Nat
deriving DecidableEq, Repr

/-- The persistent store (Prisma/PostgreSQL). -/
structure DB where
  posts : List Post
  follows : List Follow
  likes : List Like
  comments : List Comment
deriving DecidableEq, Repr

/-- A decorated post as produced by the `formattedPosts` map in `getFeed`
(postController.js lines 150-160). -/
structure FeedPost where
  id : Nat
  content : String
  imageUrl : Option String
  createdAt : Nat
  authorId : Nat
  likesCount : Nat
  commentsCount : Nat
  isLiked : Bool
deriving DecidableEq, Repr

/-- The `response` object of `getFeed`: the page plus its pagination info. -/
structure FeedResponse where
  posts : List FeedPost
  hasMore : Bool
  nextCursor : Option Nat
deriving DecidableEq, Repr

/-- A cached feed entry: the serialized response together with the TTL it
was stored with (`redis.setex key 300 ...`). -/
structure CacheEntry where
  page : FeedResponse
  ttl : Nat
deriving DecidableEq, Repr

/-- The data held by a live Redis connection: the `feed:<userId>` keys and
the `likes:<postId>` keys used by the post controller. -/
structure RedisData where
  feed : List (Nat × CacheEntry)
  likeCounts : List (Nat × Nat)
deriving DecidableEq, Repr

/-- The Redis connection state.  `none` models a down or erroring
connection: every `redisUtils` helper wraps its body in try/catch and on
error returns `null` (reads) or does nothing (writes). -/
abbrev RedisState := Option RedisData

/-- The fixed TTL (seconds) used by `redisUtils.cacheFeed`
(`redis.setex(key, 300, ...)`). -/
def feedTTL : Nat := 300

/-- `redisUtils.getCachedFeed`: read `feed:<userId>`; `null` on miss or on
any Redis error. -/
def getCachedFeed (r : RedisState) (userId : Nat) : Option FeedResponse :=
  match r with
  | none => none
  | some d => (d.feed.lookup userId).map (·.page)

/-- `redisUtils.cacheFeed`: `setex feed:<userId> 300 resp`; a no-op on a
down connection.  `setex` overwrites the key, modelled by dropping any
previous binding and prepending the new one. -/
def cacheFeed (r : RedisState) (userId : Nat) (resp : FeedResponse) : RedisState :=
  match r with
  | none => none
  | some d =>
      some { d with
        feed := (userId, ⟨resp, feedTTL⟩) :: d.feed.filter (fun e => decide (e.1 ≠ userId)) }

/-- `redisUtils.invalidatePattern` applied to the exact key
`feed:<userId>` (as done per follower in `createPost`). -/
def invalidateFeedKey (r : RedisState) (userId : Nat) : RedisState :=
  match r with
  | none => none
  | some d => some { d with feed := d.feed.filter (fun e => decide (e.1 ≠ userId)) }

/-- `redisUtils.invalidatePattern` applied to `feed:*` (as done in
`deletePost`): every feed key is removed. -/
def invalidateAllFeedKeys (r : RedisState) : RedisState :=
  match r with
  | none => none
  | some d => some { d with feed := [] }

/-- `redisUtils.cacheLikesCount`: `setex likes:<postId> 60 count`; a no-op
on a down connection.  It touches only the `likes:` keyspace. -/
def cacheLikesCount (r : RedisState) (postId cnt : Nat) : RedisState :=
  match r with
  | none => none
  | some d =>
      some { d with
        likeCounts := (postId, cnt) :: d.likeCounts.filter (fun e => decide (e.1 ≠ postId)) }

/-- The follow-set resolution of `getFeed` (lines 97-106): the ids the
viewer follows, with the viewer's own id pushed at the end. -/
def followingIds (db : DB) (userId : Nat) : List Nat :=
  (db.follows.filter (fun f => decide (f.followerId = userId))).map (·.followingId) ++ [userId]

/-- The Prisma `where` clause of the feed query (lines 108-115):
author in the resolved set, and, when a cursor is given, id strictly
less than the cursor. -/
def matchesWhere (authorIds : List Nat) (cursor : Option Nat) (p : Post) : Bool :=
  decide (p.authorId ∈ authorIds) &&
    match cursor with
    | none => true
    | some c => decide (p.id < c)

/-- The ordering used by `orderBy: { createdAt: 'desc' }`: descending
creation time (and nothing else — the code has no secondary sort key). -/
def postRecency (a b : Post) : Prop := b.createdAt ≤ a.createdAt

instance : DecidableRel postRecency := fun a b => Nat.decLe b.createdAt a.createdAt

instance : IsTotal Post postRecency := ⟨fun a b => Nat.le_total b.createdAt a.createdAt⟩

instance : IsTrans Post postRecency := ⟨fun _ _ _ h h' => Nat.le_trans h' h⟩

/-- The full ordered result set of the feed query (before `take` is
applied): rows matching the `where` clause, sorted by `createdAt`
descending. -/
def feedQueryResult (db : DB) (userId : Nat) (cursor : Option Nat) : List Post :=
  (db.posts.filter (matchesWhere (followingIds db userId) cursor)).insertionSort postRecency

/-- `prisma.post.findMany` of `getFeed` (lines 117-143): the ordered
matching rows limited to `take + 1` ("fetch one extra to determine if
there are more"). -/
def fetchPosts (db : DB) (userId : Nat) (cursor : Option Nat) (tk : Nat) : List Post :=
  (feedQueryResult db userId cursor).take (tk + 1)

/-- Number of likes of a post (`_count.likes`). -/
def likesCountIn (db : DB) (postId : Nat) : Nat :=
  db.likes.countP (fun l => decide (l.postId = postId))

/-- Number of comments of a post (`_count.comments`). -/
def commentsCountIn (db : DB) (postId : Nat) : Nat :=
  db.comments.countP (fun c => decide (c.postId = postId))

/-- Whether the viewer has liked a post: the feed query includes
`likes: { where: { userId } }` and formats `isLiked: post.likes.length > 0`. -/
def viewerLiked (db : DB) (postId userId : Nat) : Bool :=
  decide (0 < db.likes.countP (fun l => decide (l.postId = postId ∧ l.userId = userId)))

/-- The per-post decoration of `getFeed` (lines 150-160). -/
def formatPost (db : DB) (userId : Nat) (p : Post) : FeedPost :=
  { id := p.id
    content := p.content
    imageUrl := p.imageUrl
    createdAt := p.createdAt
    authorId := p.authorId
    likesCount := likesCountIn db p.id
    commentsCount := commentsCountIn db p.id
    isLiked := viewerLiked db p.id userId }

/-- The store path of `getFeed` (lines 97-168): fetch `take + 1` rows,
decide `hasMore`, trim the extra row, decorate, and set `nextCursor` to
the id of the last returned row.  Returns `none` when the JavaScript
would throw: with `hasMore` true and an empty trimmed page,
`postsToReturn[postsToReturn.length - 1].id` is a TypeError on
`undefined` (reachable only when `take < 1`). -/
def assembleFeedPage (db : DB) (userId : Nat) (cursor : Option Nat) (tk : Nat) :
    Option FeedResponse :=
  if tk < (fetchPosts db userId cursor tk).length then
    match ((fetchPosts db userId cursor tk).dropLast).getLast? with
    | some lastPost =>
        some { posts := ((fetchPosts db userId cursor tk).dropLast).map (formatPost db userId)
               hasMore := true
               nextCursor := some lastPost.id }
    | none => none
  else
    some { posts := (fetchPosts db userId cursor tk).map (formatPost db userId)
           hasMore := false
           nextCursor := none }

/-- The result envelope of `getFeed`: the `data` object, plus whether the
top-level `cached: true` flag was attached (it is present exactly on
cache hits, lines 89-93). -/
structure FeedResult where
  data : FeedResponse
  cached : Bool
deriving DecidableEq, Repr

/-- `getFeed` (lines 79-181), given an already-computed effective `take`:
consult the cache only when no cursor is supplied; on a hit return the
cached page verbatim (with `cached: true`); otherwise run the store path
and, for a cursor-less request, write the page into the cache.  Returns
the response together with the new Redis state; `none` models the thrown
TypeError of the store path. -/
def getFeed (r : RedisState) (db : DB) (userId : Nat) (cursor : Option Nat) (tk : Nat) :
    Option (FeedResult × RedisState) :=
  match cursor with
  | none =>
      match getCachedFeed r userId with
      | some page => some (⟨page, true⟩, r)
      | none =>
          match assembleFeedPage db userId none tk with
          | none => none
          | some resp => some (⟨resp, false⟩, cacheFeed r userId resp)
  | some c =>
      (assembleFeedPage db userId (some c) tk).map (fun resp => (⟨resp, false⟩, r))

/-- Repeated paging as the spec's completeness property describes it:
call `getFeed` starting from `cursor = null`, feed each `nextCursor` into
the next request while `hasMore` is true, and concatenate the returned
pages.  `fuel` bounds the number of requests; `none` means fuel ran out
or a request failed. -/
def pageFeed (r : RedisState) (db : DB) (userId : Nat) (tk : Nat) :
    Nat → Option Nat → Option (List FeedPost)
  | 0, _ => none
  | fuel + 1, cursor =>
      match getFeed r db userId cursor tk with
      | none => none
      | some (res, r') =>
          if res.data.hasMore then
            match res.data.nextCursor with
            | some c => (pageFeed r' db userId tk fuel (some c)).map (res.data.posts ++ ·)
            | none => none
          else
            some res.data.posts

/-- A JavaScript value as it reaches a controller from `req.body`:
`undefined` (field absent), `null`, or a string. -/
inductive JStr where
  | undef
  | null
  | str (s : String)
deriving DecidableEq, Repr

/-- The JavaScript truthiness test for a `JStr`: `undefined`, `null`
and the empty string are falsy. -/
def JStr.truthy : JStr → Bool
  | .undef => false
  | .null => false
  | .str s => decide (s ≠ "")

/-- `imageUrl || null` (createPost line 27): a falsy image url is stored
as `null`. -/
def jsOrNull : JStr → Option String
  | .str s => if s = "" then none else some s
  | _ => none

/-- The leading decimal digits of a character list, or `none` when the
first character is not a digit (JavaScript `parseInt` returns `NaN`
then). -/
def leadingNat (cs : List Char) : Option Nat :=
  let ds := cs.takeWhile Char.isDigit
  if ds.isEmpty then none else some (ds.foldl (fun a c => 10 * a + (c.toNat - 48)) 0)

/-- JavaScript `parseInt` on a string: skip leading spaces, read an
optional sign and then the leading digits; `none` models `NaN`. -/
def parseIntJS (s : String) : Option Int :=
  let cs := s.data.dropWhile (fun c => decide (c = ' '))
  if cs.head? = some '-' then (leadingNat cs.tail).map (fun n => -(n : Int))
  else if cs.head? = some '+' then (leadingNat cs.tail).map (fun n => (n : Int))
  else (leadingNat cs).map (fun n => (n : Int))

/-- The effective page size computed by `getFeed` line 81-82:
`const { limit = 20 } = req.query; const take = Math.min(parseInt(limit), 50)`.
The query parameter is a string when present; the default `20` applies
only when it is absent.  `none` models `NaN` (`Math.min(NaN, 50)` is
`NaN`); there is no lower bound and no `NaN` guard in the code. -/
def computeTake (limit : Option String) : Option Int :=
  match limit with
  | none => some 20
  | some s =>
      match parseIntJS s with
      | none => none
      | some n => some (min n 50)

/-- `createPost` (lines 19-73) together with its cache invalidation
(lines 49-57): insert the new post, then invalidate the exact key
`feed:<followerId>` for each follower of the author — and only those
keys.  The generated row id and `createdAt` are supplied by the store;
they are passed as parameters here. -/
def createPost (db : DB) (r : RedisState) (authorId pid now : Nat)
    (content : String) (imageUrl : JStr) : DB × RedisState :=
  let p : Post := ⟨pid, authorId, content, jsOrNull imageUrl, now⟩
  let db' := { db with posts := db.posts ++ [p] }
  let followerIds :=
    (db.follows.filter (fun f => decide (f.followingId = authorId))).map (·.followerId)
  (db', followerIds.foldl (fun acc fid => invalidateFeedKey acc fid) r)

/-- `deletePost` (lines 370-401): 404 when the post does not exist, 403
when the requester is not the author; otherwise delete the post (the
schema cascades to its likes and comments) and invalidate `feed:*`. -/
def deletePost (db : DB) (r : RedisState) (postId userId : Nat) :
    Except Nat (DB × RedisState) :=
  match db.posts.find? (fun p => decide (p.id = postId)) with
  | none => .error 404
  | some p =>
      if p.authorId = userId then
        .ok ({ db with
                posts := db.posts.filter (fun q => decide (q.id ≠ postId))
                likes := db.likes.filter (fun l => decide (l.postId ≠ postId))
                comments := db.comments.filter (fun c => decide (c.postId ≠ postId)) },
             invalidateAllFeedKeys r)
      else .error 403

/-- `toggleLike` (lines 406-488): 404 when the post does not exist;
otherwise delete the existing like row (found through the unique
`postId_userId` key) or create a new one, recount, and cache the count
under `likes:<postId>`.  The feed cache is not touched.  Returns the new
store and Redis states plus the response's `isLiked` and `likesCount`. -/
def toggleLike (db : DB) (r : RedisState) (postId userId : Nat) :
    Except Nat (DB × RedisState × Bool × Nat) :=
  match db.posts.find? (fun p => decide (p.id = postId)) with
  | none => .error 404
  | some _ =>
      match db.likes.find? (fun l => decide (l.postId = postId ∧ l.userId = userId)) with
      | some _ =>
          let likes' := db.likes.eraseP (fun l => decide (l.postId = postId ∧ l.userId = userId))
          let db' := { db with likes := likes' }
          let cnt := likesCountIn db' postId
          .ok (db', cacheLikesCount r postId cnt, false, cnt)
      | none =>
          let likes' := db.likes ++ [⟨postId, userId⟩]
          let db' := { db with likes := likes' }
          let cnt := likesCountIn db' postId
          .ok (db', cacheLikesCount r postId cnt, true, cnt)

/-- `updatePost` (lines 314-365): 404 when the post does not exist, 403
when the requester is not the author; otherwise update the row with
`content: content || existingPost.content` (a falsy `content` keeps the
old text) and
`imageUrl: imageUrl !== undefined ? imageUrl : existingPost.imageUrl`
(an explicit `null` clears the image, an absent field keeps it). -/
def updatePost (db : DB) (postId userId : Nat) (content imageUrl : JStr) :
    Except Nat DB :=
  match db.posts.find? (fun p => decide (p.id = postId)) with
  | none => .error 404
  | some p =>
      if p.authorId = userId then
        .ok { db with
          posts := db.posts.map (fun q =>
            if q.id = postId then
              { q with
                content := if content.truthy then
                             match content with | .str s => s | _ => q.content
                           else q.content
                imageUrl := match imageUrl with
                            | .undef => q.imageUrl
                            | .null => none
                            | .str s => some s }
            else q) }
      else .error 403

/-! ### Helper lemmas -/

/-- Strict descending identifier order between posts.  When identifiers
agree with creation-time order, the `createdAt desc` sort produces a list
that is pairwise in this relation, which is what makes `id < cursor`
paging sound. -/
def idGT (a b : Post) : Prop := b.id < a.id

instance : DecidableRel idGT := fun a b => Nat.decLt b.id a.id

instance : IsAntisymm Post idGT :=
  ⟨fun _ _ h h' => absurd (Nat.lt_trans h h') (Nat.lt_irrefl _)⟩

theorem countP_id_eq_one {l : List Post} (hn : (l.map (·.id)).Nodup) {p : Post}
    (hm : p ∈ l) : l.countP (fun q => decide (q.id = p.id)) = 1 := by
  induction l with
  | nil => cases hm
  | cons x t ih =>
      rw [List.map_cons, List.nodup_cons] at hn
      rcases List.mem_cons.mp hm with rfl | hmt
      · have h0 : t.countP (fun q => decide (q.id = p.id)) = 0 := by
          rw [List.countP_eq_zero]
          intro q hq hq'
          have hq'' : q.id = p.id := of_decide_eq_true hq'
          exact hn.1 (by rw [← hq'']; exact List.mem_map_of_mem (·.id) hq)
        simp [List.countP_cons, h0]
      · have h1 := ih hn.2 hmt
        have hxid : x.id ≠ p.id := by
          intro hxp
          exact hn.1 (by rw [hxp]; exact List.mem_map_of_mem (·.id) hmt)
        simp [List.countP_cons, h1, hxid]

theorem pairwise_getLast_or {R : Post → Post → Prop} :
    ∀ (l : List Post) {z : Post}, l.Pairwise R → l.getLast? = some z →
      ∀ a ∈ l, a = z ∨ R a z := by
  intro l
  induction l with
  | nil => intro z _ h; cases h
  | cons x t ih =>
      intro z hp hz a ha
      cases t with
      | nil =>
          have hxz : x = z := by simpa using hz
          have hax : a = x := by simpa using ha
          exact Or.inl (hax.trans hxz)
      | cons y t' =>
          rw [List.getLast?_cons_cons] at hz
          rcases List.mem_cons.mp ha with rfl | hat
          · exact Or.inr ((List.pairwise_cons.mp hp).1 z
              (List.mem_of_mem_getLast? hz))
          · exact ih (List.pairwise_cons.mp hp).2 hz a hat

theorem lookup_filter_ne (l : List (Nat × CacheEntry)) (u v : Nat) :
    (l.filter (fun e => decide (e.1 ≠ u))).lookup v =
      if v = u then none else l.lookup v := by
  induction l with
  | nil => simp
  | cons e t ih =>
      obtain ⟨k, b⟩ := e
      rw [List.filter_cons]
      by_cases hku : k = u
      · subst hku
        rw [if_neg (by simp), ih]
        by_cases hvk : v = k
        · simp [hvk]
        · have hbeq : (v == k) = false := by simpa using hvk
          rw [if_neg hvk, if_neg hvk, List.lookup_cons, hbeq]
      · rw [if_pos (by simpa using hku)]
        by_cases hvk : v = k
        · subst hvk
          have hbeq : (v == v) = true := by simp
          rw [if_neg hku, List.lookup_cons, List.lookup_cons, hbeq]
        · have hbeq : (v == k) = false := by simpa using hvk
          rw [List.lookup_cons, hbeq, ih, List.lookup_cons, hbeq]

/-- When identifiers agree with creation-time order on a duplicate-free
list, sorting it by `createdAt` descending yields a list that is strictly
descending in `id`. -/
theorem insertionSort_idGT (l : List Post)
    (hn : (l.map (·.id)).Nodup)
    (ha : ∀ p ∈ l, ∀ q ∈ l, (p.id < q.id ↔ p.createdAt < q.createdAt)) :
    (l.insertionSort postRecency).Pairwise idGT := by
  have hs : (l.insertionSort postRecency).Pairwise postRecency :=
    List.sorted_insertionSort postRecency l
  have hperm : (l.insertionSort postRecency).Perm l := List.perm_insertionSort postRecency l
  have hmem : ∀ x ∈ l.insertionSort postRecency, x ∈ l := fun x hx => hperm.mem_iff.mp hx
  have hnd : ((l.insertionSort postRecency).map (·.id)).Nodup :=
    (hperm.map (·.id)).nodup_iff.mpr hn
  have hndl : (l.insertionSort postRecency).Nodup := List.Nodup.of_map (·.id) hnd
  refine (hs.and hndl).imp_of_mem ?_
  intro a b hal hbl hab
  have ha' := hmem a hal
  have hb' := hmem b hbl
  have hids : a.id ≠ b.id := fun h =>
    hab.2 (List.inj_on_of_nodup_map hnd hal hbl h)
  rcases Nat.lt_trichotomy a.id b.id with hlt | heq | hgt
  · exact absurd ((ha a ha' b hb').mp hlt) (Nat.not_lt.mpr hab.1)
  · exact absurd heq hids
  · exact hgt

/-- Under the same agreement hypothesis, sorting commutes with
filtering: the sort is deterministic because the `idGT` order is
antisymmetric and both sides are permutations of the same rows. -/
theorem insertionSort_filter_comm (l : List Post) (q : Post → Bool)
    (hn : (l.map (·.id)).Nodup)
    (ha : ∀ p ∈ l, ∀ p' ∈ l, (p.id < p'.id ↔ p.createdAt < p'.createdAt)) :
    (l.filter q).insertionSort postRecency = (l.insertionSort postRecency).filter q := by
  have hn' : ((l.filter q).map (·.id)).Nodup :=
    List.Nodup.sublist (List.Sublist.map (·.id) (List.filter_sublist l)) hn
  have ha' : ∀ p ∈ l.filter q, ∀ p' ∈ l.filter q,
      (p.id < p'.id ↔ p.createdAt < p'.createdAt) :=
    fun p hp p' hp' => ha p (List.mem_of_mem_filter hp) p' (List.mem_of_mem_filter hp')
  have hs1 : ((l.filter q).insertionSort postRecency).Pairwise idGT :=
    insertionSort_idGT (l.filter q) hn' ha'
  have hs2 : ((l.insertionSort postRecency).filter q).Pairwise idGT :=
    List.Pairwise.sublist (List.filter_sublist _) (insertionSort_idGT l hn ha)
  have hperm : ((l.filter q).insertionSort postRecency).Perm
      ((l.insertionSort postRecency).filter q) :=
    (List.perm_insertionSort postRecency (l.filter q)).trans
      (List.Perm.filter q (List.perm_insertionSort postRecency l)).symm
  exact List.eq_of_perm_of_sorted hperm hs1 hs2

theorem matchesWhere_some (ids : List Nat) (c : Nat) (p : Post) :
    matchesWhere ids (some c) p = (matchesWhere ids none p && decide (p.id < c)) := by
  simp [matchesWhere]

/-- Short name for the posts eligible for a viewer's feed: those whose
author is followed by the viewer or is the viewer (the cursor-less
`where` clause). -/
def eligiblePosts (db : DB) (u : Nat) : List Post :=
  db.posts.filter (matchesWhere (followingIds db u) none)

theorem feedQueryResult_none_pairwise (db : DB) (u : Nat)
    (hids : (db.posts.map (·.id)).Nodup)
    (hagree : ∀ p ∈ eligiblePosts db u, ∀ q ∈ eligiblePosts db u,
      (p.id < q.id ↔ p.createdAt < q.createdAt)) :
    (feedQueryResult db u none).Pairwise idGT := by
  have hn : ((eligiblePosts db u).map (·.id)).Nodup :=
    List.Nodup.sublist (List.Sublist.map (·.id) (List.filter_sublist db.posts)) hids
  exact insertionSort_idGT (eligiblePosts db u) hn hagree

theorem feedQueryResult_some_eq (db : DB) (u : Nat)
    (hids : (db.posts.map (·.id)).Nodup)
    (hagree : ∀ p ∈ eligiblePosts db u, ∀ q ∈ eligiblePosts db u,
      (p.id < q.id ↔ p.createdAt < q.createdAt)) (c : Nat) :
    feedQueryResult db u (some c) =
      (feedQueryResult db u none).filter (fun p => decide (p.id < c)) := by
  have hn : ((eligiblePosts db u).map (·.id)).Nodup :=
    List.Nodup.sublist (List.Sublist.map (·.id) (List.filter_sublist db.posts)) hids
  have h1 : db.posts.filter (matchesWhere (followingIds db u) (some c)) =
      (eligiblePosts db u).filter (fun p => decide (p.id < c)) := by
    rw [eligiblePosts, List.filter_filter]
    exact List.filter_congr (fun p _ => by rw [matchesWhere_some, Bool.and_comm])
  show (db.posts.filter (matchesWhere (followingIds db u) (some c))).insertionSort postRecency
      = _
  rw [h1, insertionSort_filter_comm (eligiblePosts db u) _ hn hagree]
  rfl

theorem fetchPosts_length_le (db : DB) (u : Nat) (co : Option Nat) (tk : Nat) :
    (fetchPosts db u co tk).length ≤ tk + 1 := by
  rw [fetchPosts, List.length_take]
  omega

theorem assembleFeedPage_of_le (db : DB) (u : Nat) (co : Option Nat) (tk : Nat)
    (hge : (feedQueryResult db u co).length ≤ tk) :
    assembleFeedPage db u co tk =
      some { posts := (feedQueryResult db u co).map (formatPost db u),
             hasMore := false, nextCursor := none } := by
  have hfetch : fetchPosts db u co tk = feedQueryResult db u co :=
    List.take_of_length_le (by omega)
  unfold assembleFeedPage
  rw [hfetch, if_neg (by omega)]

theorem assembleFeedPage_of_lt (db : DB) (u : Nat) (co : Option Nat) (tk : Nat)
    (h1 : 1 ≤ tk) (hlt : tk < (feedQueryResult db u co).length) :
    ∃ lastPost, ((feedQueryResult db u co).take tk).getLast? = some lastPost ∧
      assembleFeedPage db u co tk =
        some { posts := ((feedQueryResult db u co).take tk).map (formatPost db u),
               hasMore := true, nextCursor := some lastPost.id } := by
  have hfetch : fetchPosts db u co tk = (feedQueryResult db u co).take (tk + 1) := rfl
  have hflen : (fetchPosts db u co tk).length = tk + 1 := by
    rw [hfetch, List.length_take]; omega
  have hdrop : (fetchPosts db u co tk).dropLast = (feedQueryResult db u co).take tk := by
    rw [hfetch, List.dropLast_eq_take, List.length_take, List.take_take]
    congr 1
    omega
  have htklen : ((feedQueryResult db u co).take tk).length = tk := by
    rw [List.length_take]; omega
  have hne : (feedQueryResult db u co).take tk ≠ [] := by
    intro h
    rw [h] at htklen
    simp at htklen
    omega
  obtain ⟨lastPost, hlast⟩ :=
    Option.isSome_iff_exists.mp (List.getLast?_isSome.mpr hne)
  refine ⟨lastPost, hlast, ?_⟩
  unfold assembleFeedPage
  rw [if_pos (by omega), hdrop, hlast]

/-- On a strictly-id-descending list, filtering by "id below the last
element of the first `n` rows" yields exactly the rows after the first
`n`: the `id < cursor` page filter resumes right where the previous page
stopped. -/
theorem filter_lt_getLast_drop (cur : List Post) (n : Nat)
    (hp : cur.Pairwise idGT) (lastPost : Post)
    (hl : (cur.take n).getLast? = some lastPost) :
    cur.filter (fun p => decide (p.id < lastPost.id)) = cur.drop n := by
  conv_lhs => rw [← List.take_append_drop n cur]
  rw [List.filter_append]
  have hp' : (cur.take n ++ cur.drop n).Pairwise idGT := by
    rw [List.take_append_drop]
    exact hp
  rw [List.pairwise_append] at hp'
  obtain ⟨hA, _hB, hAB⟩ := hp'
  have hmem : lastPost ∈ cur.take n := List.mem_of_mem_getLast? hl
  have hBfull : (cur.drop n).filter (fun p => decide (p.id < lastPost.id)) = cur.drop n := by
    rw [List.filter_eq_self]
    intro b hb
    exact decide_eq_true (hAB lastPost hmem b hb)
  have hAnil : (cur.take n).filter (fun p => decide (p.id < lastPost.id)) = [] := by
    rw [List.filter_eq_nil_iff]
    intro a haA hdec
    have hlt : a.id < lastPost.id := of_decide_eq_true hdec
    rcases pairwise_getLast_or (cur.take n) hA hl a haA with rfl | hR
    · exact Nat.lt_irrefl _ hlt
    · exact Nat.lt_irrefl _ (Nat.lt_trans hlt hR)
  rw [hAnil, hBfull, List.nil_append]

theorem filter_lt_filter_lt (L : List Post) (c x : Nat) (hxc : x ≤ c) :
    L.filter (fun p => decide (p.id < x)) =
      (L.filter (fun p => decide (p.id < c))).filter (fun p => decide (p.id < x)) := by
  rw [List.filter_filter]
  apply List.filter_congr
  intro p _
  by_cases h : p.id < x
  · simp [h, Nat.lt_of_lt_of_le h hxc]
  · simp [h]

/-- The cursor-carrying tail of the paging loop: with a fixed store,
enough fuel, and identifiers agreeing with creation time, every later
request returns exactly the eligible rows below the cursor. -/
theorem pageFeed_filter_eq (db : DB) (u tk : Nat) (htk : 1 ≤ tk)
    (hQsome : ∀ c, feedQueryResult db u (some c) =
      (feedQueryResult db u none).filter (fun p => decide (p.id < c)))
    (hP : (feedQueryResult db u none).Pairwise idGT) :
    ∀ (fuel : Nat) (c : Nat) (r : RedisState),
      ((feedQueryResult db u none).filter (fun p => decide (p.id < c))).length < fuel →
      pageFeed r db u tk fuel (some c) =
        some (((feedQueryResult db u none).filter (fun p => decide (p.id < c))).map
          (formatPost db u)) := by
  intro fuel
  induction fuel with
  | zero => intro c r h; omega
  | succ fuel ih =>
      intro c r hfuel
      have hcurP : ((feedQueryResult db u none).filter
          (fun p => decide (p.id < c))).Pairwise idGT :=
        List.Pairwise.sublist (List.filter_sublist _) hP
      by_cases hlen : ((feedQueryResult db u none).filter
          (fun p => decide (p.id < c))).length ≤ tk
      · have hpage := assembleFeedPage_of_le db u (some c) tk (by rw [hQsome c]; exact hlen)
        rw [hQsome c] at hpage
        simp only [pageFeed, getFeed, hpage, Option.map_some']
        simp
      · push_neg at hlen
        obtain ⟨lastPost, hlast, hpage⟩ :=
          assembleFeedPage_of_lt db u (some c) tk htk (by rw [hQsome c]; omega)
        rw [hQsome c] at hpage hlast
        have hlastmem : lastPost ∈ (feedQueryResult db u none).filter
            (fun p => decide (p.id < c)) :=
          (List.take_sublist tk _).mem (List.mem_of_mem_getLast? hlast)
        have hle : lastPost.id ≤ c :=
          Nat.le_of_lt (of_decide_eq_true (List.mem_filter.mp hlastmem).2)
        have hnext : (feedQueryResult db u none).filter
            (fun p => decide (p.id < lastPost.id)) =
            ((feedQueryResult db u none).filter (fun p => decide (p.id < c))).drop tk := by
          rw [filter_lt_filter_lt (feedQueryResult db u none) c lastPost.id hle]
          exact filter_lt_getLast_drop _ tk hcurP lastPost hlast
        have hlen2 : ((feedQueryResult db u none).filter
            (fun p => decide (p.id < lastPost.id))).length < fuel := by
          rw [hnext, List.length_drop]
          omega
        have hrec := ih lastPost.id r hlen2
        simp only [pageFeed, getFeed, hpage, Option.map_some', hrec]
        rw [hnext]
        rw [← List.map_append, List.take_append_drop]
        simp

/-! ### Claim theorems -/

/-- C1: for every viewer and every post authored by a followed user or
the viewer themself, paging `getFeed` from `cursor = null` until
`hasMore = false` (with a cold cache and no concurrent writes) yields
every such post exactly once — no duplicates, no skips.  As the claim
notes, this hinges on post identifiers agreeing with creation-time order
(hypothesis `hagree`), since the code filters pages by `id < cursor`
while ordering by `createdAt` descending. -/
theorem feed_pagination_complete (db : DB) (u tk fuel : Nat) (r : RedisState)
    (htk : 1 ≤ tk)
    (hcold : getCachedFeed r u = none)
    (hids : (db.posts.map (·.id)).Nodup)
    (hagree : ∀ p ∈ eligiblePosts db u, ∀ q ∈ eligiblePosts db u,
      (p.id < q.id ↔ p.createdAt < q.createdAt))
    (hfuel : db.posts.length < fuel) :
    ∃ out, pageFeed r db u tk fuel none = some out ∧
      (∀ p ∈ eligiblePosts db u, out.countP (fun fp => decide (fp.id = p.id)) = 1) ∧
      (∀ fp ∈ out, ∃ p ∈ eligiblePosts db u, fp.id = p.id) := by
  have hP := feedQueryResult_none_pairwise db u hids hagree
  have hQsome := feedQueryResult_some_eq db u hids hagree
  have hperm : (feedQueryResult db u none).Perm (eligiblePosts db u) :=
    List.perm_insertionSort postRecency _
  have hLlen : (feedQueryResult db u none).length ≤ db.posts.length := by
    calc (feedQueryResult db u none).length
        = (eligiblePosts db u).length := hperm.length_eq
      _ ≤ db.posts.length := List.length_filter_le _ _
  suffices h : pageFeed r db u tk fuel none =
      some ((feedQueryResult db u none).map (formatPost db u)) by
    refine ⟨(feedQueryResult db u none).map (formatPost db u), h, ?_, ?_⟩
    · intro p hp
      have hmemL : p ∈ feedQueryResult db u none := hperm.mem_iff.mpr hp
      have hnd : ((feedQueryResult db u none).map (·.id)).Nodup :=
        (hperm.map (·.id)).nodup_iff.mpr
          (List.Nodup.sublist (List.Sublist.map (·.id) (List.filter_sublist db.posts)) hids)
      rw [List.countP_map]
      exact countP_id_eq_one hnd hmemL
    · intro fp hfp
      obtain ⟨q, hq, rfl⟩ := List.mem_map.mp hfp
      exact ⟨q, hperm.mem_iff.mp hq, rfl⟩
  obtain ⟨fuel', rfl⟩ : ∃ f, fuel = f + 1 := ⟨fuel - 1, by omega⟩
  by_cases hlen : (feedQueryResult db u none).length ≤ tk
  · have hpage := assembleFeedPage_of_le db u none tk hlen
    simp only [pageFeed, getFeed, hcold, hpage]
    simp
  · push_neg at hlen
    obtain ⟨lastPost, hlast, hpage⟩ := assembleFeedPage_of_lt db u none tk htk hlen
    have hnext : (feedQueryResult db u none).filter
        (fun p => decide (p.id < lastPost.id)) = (feedQueryResult db u none).drop tk :=
      filter_lt_getLast_drop _ tk hP lastPost hlast
    have hlen2 : ((feedQueryResult db u none).filter
        (fun p => decide (p.id < lastPost.id))).length < fuel' := by
      rw [hnext, List.length_drop]
      omega
    have hrec := pageFeed_filter_eq db u tk htk hQsome hP fuel' lastPost.id
      (cacheFeed r u
        { posts := ((feedQueryResult db u none).take tk).map (formatPost db u),
          hasMore := true, nextCursor := some lastPost.id }) hlen2
    simp only [pageFeed, getFeed, hcold, hpage, hrec, hnext]
    simp only [if_true, Option.map_some']
    rw [← List.map_append, List.take_append_drop]

/-- The store of the spec's §8 walkthrough: viewer 0 follows users 1 and
2; user 1 authored posts 1 (t=1) and 3 (t=3), user 2 authored post 2
(t=2). -/
def exScenarioDb : DB :=
  { posts := [⟨1, 1, "b2", none, 1⟩, ⟨2, 2, "c1", none, 2⟩, ⟨3, 1, "b1", none, 3⟩]
    follows := [⟨0, 1⟩, ⟨0, 2⟩]
    likes := []
    comments := [] }

theorem feed_pagination_complete_witness :
    ∃ out, pageFeed (some ⟨[], []⟩) exScenarioDb 0 2 5 none = some out ∧
      (∀ p ∈ eligiblePosts exScenarioDb 0,
        out.countP (fun fp => decide (fp.id = p.id)) = 1) ∧
      (∀ fp ∈ out, ∃ p ∈ eligiblePosts exScenarioDb 0, fp.id = p.id) :=
  feed_pagination_complete exScenarioDb 0 2 5 (some ⟨[], []⟩) (by decide) (by decide)
    (by decide) (by decide) (by decide)

/-- C2: the feed query fetches `limit + 1` rows; when more than `limit`
rows come back the page is exactly the first `limit` of them with
`hasMore = true` and `nextCursor` the id of the last returned row,
otherwise all fetched rows are returned with `hasMore = false` and
`nextCursor = null`; every page has at most `limit` items. -/
theorem feed_page_trim_spec (db : DB) (u : Nat) (co : Option Nat) (tk : Nat)
    (htk : 1 ≤ tk) :
    (fetchPosts db u co tk).length ≤ tk + 1 ∧
    (tk < (fetchPosts db u co tk).length →
      ∃ resp lastPost,
        assembleFeedPage db u co tk = some resp ∧
        resp.posts = ((fetchPosts db u co tk).take tk).map (formatPost db u) ∧
        resp.hasMore = true ∧
        resp.posts.getLast? = some (formatPost db u lastPost) ∧
        resp.nextCursor = some lastPost.id) ∧
    ((fetchPosts db u co tk).length ≤ tk →
      assembleFeedPage db u co tk =
        some { posts := (fetchPosts db u co tk).map (formatPost db u),
               hasMore := false, nextCursor := none }) ∧
    (∀ resp, assembleFeedPage db u co tk = some resp → resp.posts.length ≤ tk) := by
  have hflen : (fetchPosts db u co tk).length =
      min (tk + 1) (feedQueryResult db u co).length := by
    rw [fetchPosts, List.length_take]
  refine ⟨by omega, ?_, ?_, ?_⟩
  · intro hlt
    have hQlt : tk < (feedQueryResult db u co).length := by omega
    obtain ⟨lastPost, hlast, hpage⟩ := assembleFeedPage_of_lt db u co tk htk hQlt
    have htake : (fetchPosts db u co tk).take tk = (feedQueryResult db u co).take tk := by
      rw [fetchPosts, List.take_take]
      congr 1
      omega
    refine ⟨_, lastPost, hpage, by rw [htake], rfl, ?_, rfl⟩
    rw [List.getLast?_map, hlast, Option.map_some']
  · intro hle
    have hQle : (feedQueryResult db u co).length ≤ tk := by omega
    have hfetch : fetchPosts db u co tk = feedQueryResult db u co :=
      List.take_of_length_le (by omega)
    rw [assembleFeedPage_of_le db u co tk hQle, hfetch]
  · intro resp hresp
    by_cases hlen : (feedQueryResult db u co).length ≤ tk
    · rw [assembleFeedPage_of_le db u co tk hlen] at hresp
      cases hresp
      have hfetch : fetchPosts db u co tk = feedQueryResult db u co :=
        List.take_of_length_le (by omega)
      simpa using hlen
    · push_neg at hlen
      obtain ⟨lastPost, _, hpage⟩ := assembleFeedPage_of_lt db u co tk htk hlen
      rw [hpage] at hresp
      cases hresp
      simp [List.length_take]

theorem feed_page_trim_spec_witness :
    ∃ resp lastPost,
      assembleFeedPage exScenarioDb 0 none 2 = some resp ∧
      resp.posts = ((fetchPosts exScenarioDb 0 none 2).take 2).map (formatPost exScenarioDb 0) ∧
      resp.hasMore = true ∧
      resp.posts.getLast? = some (formatPost exScenarioDb 0 lastPost) ∧
      resp.nextCursor = some lastPost.id :=
  (feed_page_trim_spec exScenarioDb 0 none 2 (by decide)).2.1 (by decide)

/-- The ordering the claim asserts for adjacent page items: strictly
newer first, ties between equal creation times broken by identifier
descending. -/
def tieBreakDesc (a b : FeedPost) : Prop :=
  b.createdAt < a.createdAt ∨ (b.createdAt = a.createdAt ∧ b.id < a.id)

instance : DecidableRel tieBreakDesc := fun a b =>
  if h1 : b.createdAt < a.createdAt then isTrue (Or.inl h1)
  else if h2 : b.createdAt = a.createdAt ∧ b.id < a.id then isTrue (Or.inr h2)
  else isFalse (fun h => h.elim h1 h2)

/-- A store with two posts by the viewer created at the same instant,
stored in ascending id order. -/
def tieDb : DB :=
  { posts := [⟨1, 0, "a", none, 5⟩, ⟨2, 0, "b", none, 5⟩]
    follows := []
    likes := []
    comments := [] }

/-- C3 counterexample: the code sorts only by `createdAt` descending with
no secondary key, so a page can contain adjacent items with equal
creation times in ascending id order, violating the claimed
identifier-descending tie-break. -/
theorem feed_ordering_cex :
    ((assembleFeedPage tieDb 0 none 20).getD ⟨[], false, none⟩).posts.map (·.id) = [1, 2] ∧
    ((assembleFeedPage tieDb 0 none 20).getD ⟨[], false, none⟩).posts.map (·.createdAt)
      = [5, 5] ∧
    ¬ List.Chain' tieBreakDesc
      ((assembleFeedPage tieDb 0 none 20).getD ⟨[], false, none⟩).posts := by
  refine ⟨rfl, rfl, ?_⟩
  have hposts : ((assembleFeedPage tieDb 0 none 20).getD ⟨[], false, none⟩).posts =
      [formatPost tieDb 0 ⟨1, 0, "a", none, 5⟩, formatPost tieDb 0 ⟨2, 0, "b", none, 5⟩] :=
    rfl
  rw [hposts]
  intro h
  exact absurd (List.chain'_cons.mp h).1 (by decide)

/-- C3 amended: every returned page is ordered by non-increasing
`createdAt` between adjacent items; no identifier tie-break is applied
(equal creation times stay in the store's order). -/
theorem feed_ordering_adjacent (db : DB) (u : Nat) (co : Option Nat) (tk : Nat)
    (resp : FeedResponse) (hresp : assembleFeedPage db u co tk = some resp) :
    List.Chain' (fun a b : FeedPost => b.createdAt ≤ a.createdAt) resp.posts := by
  have hsorted : (feedQueryResult db u co).Pairwise postRecency :=
    List.sorted_insertionSort postRecency _
  have key : ∀ l : List Post, l.Sublist (feedQueryResult db u co) →
      List.Chain' (fun a b : FeedPost => b.createdAt ≤ a.createdAt)
        (l.map (formatPost db u)) := by
    intro l hl
    have hp : l.Pairwise postRecency := List.Pairwise.sublist hl hsorted
    have hm : (l.map (formatPost db u)).Pairwise
        (fun a b : FeedPost => b.createdAt ≤ a.createdAt) := by
      rw [List.pairwise_map]
      exact hp
    exact hm.chain'
  unfold assembleFeedPage at hresp
  by_cases hlt : tk < (fetchPosts db u co tk).length
  · rw [if_pos hlt] at hresp
    rcases hmatch : ((fetchPosts db u co tk).dropLast).getLast? with _ | lastPost
    · rw [hmatch] at hresp
      cases hresp
    · rw [hmatch] at hresp
      cases hresp
      exact key _ (((fetchPosts db u co tk).dropLast_sublist).trans
        (List.take_sublist _ _))
  · rw [if_neg hlt] at hresp
    cases hresp
    exact key _ (List.take_sublist _ _)

theorem feed_ordering_adjacent_witness :
    List.Chain' (fun a b : FeedPost => b.createdAt ≤ a.createdAt)
      ((assembleFeedPage tieDb 0 none 20).getD ⟨[], false, none⟩).posts :=
  feed_ordering_adjacent tieDb 0 none 20 _ (by decide)

/-- C4 counterexample: `limit=0` is not clamped up to 1 — the computed
take is 0, below the claimed minimum. -/
theorem computeTake_no_lower_clamp_cex :
    computeTake (some "0") = some 0 ∧ (0 : Int) < 1 := by
  constructor
  · rfl
  · decide

/-- C4 amended: the effective take is `min(parseInt(limit), 50)` with
default 20 when the parameter is absent; it is capped above at 50 but
has no lower bound (0 and negative values pass through) and no NaN
guard (a non-numeric limit yields NaN). -/
theorem computeTake_spec (s : String) :
    computeTake none = some 20 ∧
    (∀ n : Int, parseIntJS s = some n → computeTake (some s) = some (min n 50)) ∧
    (parseIntJS s = none → computeTake (some s) = none) ∧
    (∀ t : Int, computeTake (some s) = some t → t ≤ 50) := by
  refine ⟨rfl, ?_, ?_, ?_⟩
  · intro n hn
    rw [computeTake, hn]
  · intro hn
    rw [computeTake, hn]
  · intro t ht
    rw [computeTake] at ht
    rcases hn : parseIntJS s with _ | n
    · rw [hn] at ht
      cases ht
    · rw [hn] at ht
      cases ht
      exact min_le_right n 50

theorem computeTake_spec_witness :
    computeTake none = some 20 ∧ computeTake (some "-5") = some (min (-5) 50) :=
  ⟨(computeTake_spec "-5").1, (computeTake_spec "-5").2.1 (-5) (by decide)⟩

/-- C5 counterexample: a cursor referencing a nonexistent post id does
not yield an empty page — the unconditional `id < cursor` filter still
matches every eligible post with a smaller id. -/
theorem stale_cursor_cex :
    (∀ p ∈ exScenarioDb.posts, p.id ≠ 100) ∧
    ((assembleFeedPage exScenarioDb 0 (some 100) 20).getD ⟨[], false, none⟩).posts ≠ [] := by
  constructor
  · decide
  · intro h
    have h' : ((assembleFeedPage exScenarioDb 0 (some 100) 20).getD
        ⟨[], false, none⟩).posts.length = 3 := rfl
    rw [h] at h'
    cases h'

/-- C5 amended: a cursor that references no existing post is not an
error; the `id < cursor` filter applies regardless, so the page holds
exactly the eligible posts with smaller ids, and it is empty with
`hasMore = false` precisely when no eligible post has a smaller id. -/
theorem stale_cursor_filter (db : DB) (u c tk : Nat) (htk : 1 ≤ tk) :
    ∃ resp, assembleFeedPage db u (some c) tk = some resp ∧
      (∀ fp ∈ resp.posts, ∃ p ∈ db.posts,
        matchesWhere (followingIds db u) (some c) p = true ∧ fp.id = p.id) ∧
      ((resp.posts = [] ∧ resp.hasMore = false) ↔
        db.posts.filter (matchesWhere (followingIds db u) (some c)) = []) := by
  have hperm : (feedQueryResult db u (some c)).Perm
      (db.posts.filter (matchesWhere (followingIds db u) (some c))) :=
    List.perm_insertionSort postRecency _
  have hmem : ∀ q ∈ feedQueryResult db u (some c), q ∈ db.posts ∧
      matchesWhere (followingIds db u) (some c) q = true := by
    intro q hq
    exact List.mem_filter.mp (hperm.mem_iff.mp hq)
  by_cases hlen : (feedQueryResult db u (some c)).length ≤ tk
  · refine ⟨_, assembleFeedPage_of_le db u (some c) tk hlen, ?_, ?_⟩
    · intro fp hfp
      obtain ⟨q, hq, rfl⟩ := List.mem_map.mp hfp
      exact ⟨q, (hmem q hq).1, (hmem q hq).2, rfl⟩
    · have hlen_eq := hperm.length_eq
      constructor
      · rintro ⟨hnil, -⟩
        have hQnil : feedQueryResult db u (some c) = [] := by
          simpa using List.map_eq_nil_iff.mp hnil
        rw [hQnil] at hlen_eq
        have hflen : (db.posts.filter
            (matchesWhere (followingIds db u) (some c))).length = 0 := by
          simpa using hlen_eq.symm
        exact List.length_eq_zero.mp hflen
      · intro hfil
        rw [hfil] at hlen_eq
        have hQnil : feedQueryResult db u (some c) = [] :=
          List.length_eq_zero.mp (by simpa using hlen_eq)
        exact ⟨by simp [hQnil], rfl⟩
  · push_neg at hlen
    obtain ⟨lastPost, _, hpage⟩ := assembleFeedPage_of_lt db u (some c) tk htk hlen
    refine ⟨_, hpage, ?_, ?_⟩
    · intro fp hfp
      obtain ⟨q, hq, rfl⟩ := List.mem_map.mp hfp
      have hq' := (List.take_sublist tk _).mem hq
      exact ⟨q, (hmem q hq').1, (hmem q hq').2, rfl⟩
    · constructor
      · intro hcontra
        cases hcontra.2
      · intro hfil
        exfalso
        have hlen_eq := hperm.length_eq
        rw [hfil] at hlen_eq
        have hQnil : feedQueryResult db u (some c) = [] :=
          List.length_eq_zero.mp (by simpa using hlen_eq)
        rw [hQnil] at hlen
        simp at hlen

theorem stale_cursor_filter_witness :
    ∃ resp, assembleFeedPage exScenarioDb 0 (some 100) 20 = some resp ∧
      (∀ fp ∈ resp.posts, ∃ p ∈ exScenarioDb.posts,
        matchesWhere (followingIds exScenarioDb 0) (some 100) p = true ∧ fp.id = p.id) ∧
      ((resp.posts = [] ∧ resp.hasMore = false) ↔
        exScenarioDb.posts.filter
          (matchesWhere (followingIds exScenarioDb 0) (some 100)) = []) :=
  stale_cursor_filter exScenarioDb 0 100 20 (by decide)

/-- C6: the cache is consulted iff no cursor is supplied; a hit returns
the cached page verbatim and skips the store entirely (the result does
not depend on the store); any cursor-carrying request bypasses the cache
and leaves it unchanged; a freshly assembled first page is written under
the viewer's key with the fixed TTL of 300 seconds. -/
theorem first_page_cache_protocol (r : RedisState) (db : DB) (u tk : Nat) :
    (∀ page, getCachedFeed r u = some page →
      getFeed r db u none tk = some (⟨page, true⟩, r) ∧
      ∀ db' : DB, getFeed r db u none tk = getFeed r db' u none tk) ∧
    (getCachedFeed r u = none →
      getFeed r db u none tk =
        (assembleFeedPage db u none tk).map
          (fun resp => (⟨resp, false⟩, cacheFeed r u resp))) ∧
    (∀ c, getFeed r db u (some c) tk =
      (assembleFeedPage db u (some c) tk).map (fun resp => (⟨resp, false⟩, r))) ∧
    (∀ d resp, ∃ d', cacheFeed (some d) u resp = some d' ∧
      d'.feed.lookup u = some ⟨resp, 300⟩) := by
  refine ⟨?_, ?_, ?_, ?_⟩
  · intro page hpage
    refine ⟨by simp [getFeed, hpage], ?_⟩
    intro db'
    simp [getFeed, hpage]
  · intro hmiss
    cases h : assembleFeedPage db u none tk with
    | none => simp [getFeed, hmiss, h]
    | some resp => simp [getFeed, hmiss, h]
  · intro c
    rfl
  · intro d resp
    refine ⟨_, rfl, ?_⟩
    simp [cacheFeed, feedTTL, List.lookup_cons]

theorem first_page_cache_protocol_witness :
    getFeed (some ⟨[(0, ⟨⟨[], false, none⟩, 300⟩)], []⟩) exScenarioDb 0 none 20 =
      some (⟨⟨[], false, none⟩, true⟩, some ⟨[(0, ⟨⟨[], false, none⟩, 300⟩)], []⟩) :=
  ((first_page_cache_protocol (some ⟨[(0, ⟨⟨[], false, none⟩, 300⟩)], []⟩)
    exScenarioDb 0 20).1 ⟨[], false, none⟩ (by decide)).1

/-- C7: a down or erroring cache never fails a feed request — `getFeed`
falls back to the persistent-store path and returns exactly its content;
for any Redis state whose entry for the viewer agrees with the store, the
`data` payload is identical with and without the cache; the only envelope
difference is the top-level `cached` flag, `true` on hits and absent
(modelled `false`) on fresh responses. -/
theorem getCachedFeed_down (u : Nat) : getCachedFeed none u = none := rfl

theorem cacheFeed_down (u : Nat) (resp : FeedResponse) : cacheFeed none u resp = none := rfl

theorem cache_transparency (db : DB) (u tk : Nat) (co : Option Nat) :
    getFeed none db u co tk =
      (assembleFeedPage db u co tk).map
        (fun resp => (⟨resp, false⟩, (none : RedisState))) ∧
    (∀ r : RedisState, (assembleFeedPage db u co tk).isSome = true →
      (getFeed r db u co tk).isSome = true) ∧
    (∀ r : RedisState,
      (∀ page, getCachedFeed r u = some page → assembleFeedPage db u none tk = some page) →
      (getFeed r db u co tk).map (fun x => x.1.data) =
        (getFeed none db u co tk).map (fun x => x.1.data)) ∧
    (∀ r page, getCachedFeed r u = some page →
      (getFeed r db u none tk).map (fun x => x.1.cached) = some true) := by
  refine ⟨?_, ?_, ?_, ?_⟩
  · cases co with
    | none =>
        cases h : assembleFeedPage db u none tk with
        | none => simp [getFeed, getCachedFeed, h]
        | some resp => simp [getFeed, getCachedFeed, h, cacheFeed]
    | some c => rfl
  · intro r hsome
    obtain ⟨resp, hresp⟩ := Option.isSome_iff_exists.mp hsome
    cases co with
    | none =>
        cases hc : getCachedFeed r u with
        | none => simp [getFeed, hc, hresp]
        | some page => simp [getFeed, hc]
    | some c => simp [getFeed, hresp]
  · intro r hcoh
    cases co with
    | none =>
        cases hc : getCachedFeed r u with
        | none =>
            cases h : assembleFeedPage db u none tk with
            | none => simp [getFeed, hc, h, getCachedFeed_down]
            | some resp => simp [getFeed, hc, h, getCachedFeed_down]
        | some page =>
            have hpage := hcoh page hc
            simp [getFeed, hc, hpage, getCachedFeed_down]
    | some c =>
        cases h : assembleFeedPage db u (some c) tk with
        | none => simp [getFeed, h]
        | some resp => simp [getFeed, h]
  · intro r page h
    simp [getFeed, h]

theorem cache_transparency_witness :
    (getFeed (some ⟨[(0, ⟨(assembleFeedPage exScenarioDb 0 none 20).getD
          ⟨[], false, none⟩, 300⟩)], []⟩) exScenarioDb 0 none 20).map
        (fun x => x.1.data) =
      (getFeed none exScenarioDb 0 none 20).map (fun x => x.1.data) :=
  (cache_transparency exScenarioDb 0 20 none).2.2.1
    (some ⟨[(0, ⟨(assembleFeedPage exScenarioDb 0 none 20).getD ⟨[], false, none⟩, 300⟩)], []⟩)
    (by
      intro page h
      have h' : some ((assembleFeedPage exScenarioDb 0 none 20).getD ⟨[], false, none⟩) =
          some page := h
      cases h'
      rfl)

theorem foldl_invalidate_lookup (fids : List Nat) :
    ∀ (d : RedisData) (v : Nat),
      ∃ d', fids.foldl (fun acc fid => invalidateFeedKey acc fid) (some d) = some d' ∧
        d'.feed.lookup v = (if v ∈ fids then none else d.feed.lookup v) ∧
        d'.likeCounts = d.likeCounts := by
  induction fids with
  | nil =>
      intro d v
      exact ⟨d, rfl, by simp, rfl⟩
  | cons fid rest ih =>
      intro d v
      obtain ⟨d', hfold, hlook, hlc⟩ :=
        ih ⟨d.feed.filter (fun e => decide (e.1 ≠ fid)), d.likeCounts⟩ v
      refine ⟨d', ?_, ?_, hlc⟩
      · exact hfold
      · rw [hlook]
        by_cases hvr : v ∈ rest
        · simp [hvr]
        · rw [if_neg hvr]
          show (d.feed.filter (fun e => decide (e.1 ≠ fid))).lookup v = _
          rw [lookup_filter_ne]
          by_cases hvf : v = fid
          · simp [hvf]
          · simp [hvf, hvr]

/-- A store in which user 2 follows user 1 and user 1 owns post 10. -/
def exC8db : DB :=
  { posts := [⟨10, 1, "p", none, 5⟩]
    follows := [⟨2, 1⟩]
    likes := []
    comments := [] }

/-- A Redis state caching a first page for the author (key 1) and the
follower (key 2). -/
def exC8redis : RedisState :=
  some ⟨[(1, ⟨⟨[], false, none⟩, 300⟩), (2, ⟨⟨[], false, none⟩, 300⟩)], []⟩

/-- C8 counterexample: a post creation invalidates only each follower's
individual feed key — here user 2 follows the author 1, and after the
author creates a post the author's own `feed:1` entry is still cached,
so the write path does not invalidate all feed keys (deletion, by
contrast, does clear them all). -/
theorem create_invalidation_cex :
    (createPost exC8db exC8redis 1 11 6 "hi" JStr.undef).2 =
      some ⟨[(1, ⟨⟨[], false, none⟩, 300⟩)], []⟩ ∧
    (deletePost exC8db exC8redis 10 1).toOption.map (fun x => x.2) =
      some (some ⟨[], []⟩) := by
  exact ⟨rfl, rfl⟩

/-- C8 amended: the two write paths invalidate differently — `deletePost`
coarsely removes every feed key (`feed:*`), while `createPost` precisely
removes exactly the keys of the author's followers, leaving every other
key (including the author's own) untouched. -/
theorem cache_invalidation_scope (db : DB) (d : RedisData)
    (authorId pid now : Nat) (content : String) (img : JStr) (postId userId : Nat) :
    (∀ v, ∃ d', (createPost db (some d) authorId pid now content img).2 = some d' ∧
      d'.feed.lookup v =
        (if v ∈ (db.follows.filter (fun f => decide (f.followingId = authorId))).map
            (·.followerId) then none else d.feed.lookup v)) ∧
    (∀ db' r', deletePost db (some d) postId userId = .ok (db', r') →
      ∃ d', r' = some d' ∧ d'.feed = []) := by
  constructor
  · intro v
    obtain ⟨d', h1, h2, _⟩ :=
      foldl_invalidate_lookup
        ((db.follows.filter (fun f => decide (f.followingId = authorId))).map
          (·.followerId)) d v
    exact ⟨d', h1, h2⟩
  · intro db' r' h
    unfold deletePost at h
    split at h
    · exact absurd h (by simp)
    · split at h
      · injection h with h1
        cases h1
        exact ⟨⟨[], d.likeCounts⟩, rfl, rfl⟩
      · exact absurd h (by simp)

theorem toggleLike_eq_of_not_liked (db : DB) (r : RedisState) (postId userId : Nat)
    (p : Post)
    (hp : db.posts.find? (fun q => decide (q.id = postId)) = some p)
    (hnot : db.likes.find?
      (fun l => decide (l.postId = postId ∧ l.userId = userId)) = none) :
    toggleLike db r postId userId =
      .ok ({ db with likes := db.likes ++ [⟨postId, userId⟩] },
           cacheLikesCount r postId
             (likesCountIn { db with likes := db.likes ++ [⟨postId, userId⟩] } postId),
           true,
           likesCountIn { db with likes := db.likes ++ [⟨postId, userId⟩] } postId) := by
  unfold toggleLike
  rw [hp, hnot]

theorem toggleLike_eq_of_liked (db : DB) (r : RedisState) (postId userId : Nat)
    (p : Post) (lk : Like)
    (hp : db.posts.find? (fun q => decide (q.id = postId)) = some p)
    (hlk : db.likes.find?
      (fun l => decide (l.postId = postId ∧ l.userId = userId)) = some lk) :
    toggleLike db r postId userId =
      .ok ({ db with likes := db.likes.eraseP (fun l => decide (l.postId = postId ∧ l.userId = userId)) },
           cacheLikesCount r postId
             (likesCountIn { db with likes := db.likes.eraseP (fun l => decide (l.postId = postId ∧ l.userId = userId)) } postId),
           false,
           likesCountIn { db with likes := db.likes.eraseP (fun l => decide (l.postId = postId ∧ l.userId = userId)) } postId) := by
  unfold toggleLike
  rw [hp, hlk]

theorem likesCountIn_append_self (db : DB) (postId userId : Nat) :
    likesCountIn { db with likes := db.likes ++ [⟨postId, userId⟩] } postId =
      likesCountIn db postId + 1 := by
  unfold likesCountIn
  rw [List.countP_append]
  simp [List.countP_cons]

theorem viewerLiked_append_self (db : DB) (postId userId : Nat) :
    viewerLiked { db with likes := db.likes ++ [⟨postId, userId⟩] } postId userId = true := by
  unfold viewerLiked
  rw [List.countP_append]
  simp [List.countP_cons]

theorem mem_page_format (db : DB) (u : Nat) (co : Option Nat) (tk : Nat)
    (resp : FeedResponse) (hresp : assembleFeedPage db u co tk = some resp) :
    ∀ fp ∈ resp.posts, ∃ q, fp = formatPost db u q := by
  unfold assembleFeedPage at hresp
  split at hresp
  · split at hresp
    · injection hresp with h'
      subst h'
      intro fp hfp
      obtain ⟨q, _, rfl⟩ := List.mem_map.mp hfp
      exact ⟨q, rfl⟩
    · cases hresp
  · injection hresp with h'
    subst h'
    intro fp hfp
    obtain ⟨q, _, rfl⟩ := List.mem_map.mp hfp
    exact ⟨q, rfl⟩

/-- A store with a single post 10 by user 1 and no likes. -/
def exC9db : DB :=
  { posts := [⟨10, 1, "x", none, 5⟩], follows := [], likes := [], comments := [] }

/-- The Redis state after viewer 1 fetches their first page against an
empty cache: the page (with `isLiked = false`) is now cached under
`feed:1`. -/
def exC9warm : RedisState :=
  ((getFeed (some ⟨[], []⟩) exC9db 1 none 20).map (·.2)).getD none

/-- The store, Redis state and response produced by viewer 1 then liking
post 10. -/
def exC9toggled : DB × RedisState × Bool × Nat :=
  (toggleLike exC9db exC9warm 10 1).toOption.getD (exC9db, none, false, 0)

/-- C9 counterexample: after liking a post, requesting the feed again
does not show `viewerHasLiked = true` — `toggleLike` never invalidates
the feed cache, so the pre-like first page is served (the like row is in
the store, yet the feed shows `isLiked = false` and the old count). -/
theorem like_then_feed_cex :
    exC9toggled.1.likes = [⟨10, 1⟩] ∧
    ((getFeed exC9toggled.2.1 exC9toggled.1 1 none 20).map
        (fun x => x.1.data.posts.map (·.isLiked))).getD [] = [false] ∧
    ((getFeed exC9toggled.2.1 exC9toggled.1 1 none 20).map
        (fun x => x.1.data.posts.map (·.likesCount))).getD [] = [0] ∧
    ((getFeed exC9toggled.2.1 exC9toggled.1 1 none 20).map
        (fun x => x.1.cached)).getD false = true := by
  exact ⟨rfl, rfl, rfl, rfl⟩

/-- C9 amended: provided the feed page is assembled from the store (a
cursor-bearing or cache-missing request), liking an existing, not-yet
liked post makes the feed show `viewerHasLiked = true` with `likeCount`
exactly one more than before; toggling again restores the original store
exactly, so double toggling is the identity on the like state. -/
theorem like_toggle_fresh_feed (db : DB) (r : RedisState) (postId userId : Nat) (p : Post)
    (hp : db.posts.find? (fun q => decide (q.id = postId)) = some p)
    (hnot : db.likes.find?
      (fun l => decide (l.postId = postId ∧ l.userId = userId)) = none) :
    ∃ db₁ r₁,
      toggleLike db r postId userId = .ok (db₁, r₁, true, likesCountIn db postId + 1) ∧
      db₁.posts = db.posts ∧
      (∀ co tk resp, assembleFeedPage db₁ userId co tk = some resp →
        ∀ fp ∈ resp.posts, fp.id = postId →
          fp.isLiked = true ∧ fp.likesCount = likesCountIn db postId + 1) ∧
      (∀ r' : RedisState, ∃ r₂,
        toggleLike db₁ r' postId userId = .ok (db, r₂, false, likesCountIn db postId)) := by
  have hcnt := likesCountIn_append_self db postId userId
  refine ⟨{ db with likes := db.likes ++ [⟨postId, userId⟩] },
    cacheLikesCount r postId (likesCountIn db postId + 1), ?_, rfl, ?_, ?_⟩
  · rw [toggleLike_eq_of_not_liked db r postId userId p hp hnot, hcnt]
  · intro co tk resp hresp fp hfp hfpid
    obtain ⟨q, rfl⟩ := mem_page_format _ userId co tk resp hresp fp hfp
    have hqid : q.id = postId := hfpid
    constructor
    · show viewerLiked { db with likes := db.likes ++ [⟨postId, userId⟩] } q.id userId = true
      rw [hqid]
      exact viewerLiked_append_self db postId userId
    · show likesCountIn { db with likes := db.likes ++ [⟨postId, userId⟩] } q.id =
        likesCountIn db postId + 1
      rw [hqid]
      exact hcnt
  · intro r'
    have hp1 : ({ db with likes := db.likes ++ [⟨postId, userId⟩] } : DB).posts.find?
        (fun q => decide (q.id = postId)) = some p := hp
    have hfind2 : ({ db with likes := db.likes ++ [⟨postId, userId⟩] } : DB).likes.find?
        (fun l => decide (l.postId = postId ∧ l.userId = userId)) =
        some ⟨postId, userId⟩ := by
      show (db.likes ++ [(⟨postId, userId⟩ : Like)]).find? _ = _
      rw [List.find?_append, hnot]
      simp
    have herase : ({ db with likes := db.likes ++ [⟨postId, userId⟩] } : DB).likes.eraseP
        (fun l => decide (l.postId = postId ∧ l.userId = userId)) = db.likes := by
      show (db.likes ++ [(⟨postId, userId⟩ : Like)]).eraseP _ = _
      rw [List.eraseP_append_right _ (List.find?_eq_none.mp hnot)]
      simp
    refine ⟨cacheLikesCount r' postId (likesCountIn db postId), ?_⟩
    rw [toggleLike_eq_of_liked _ r' postId userId p ⟨postId, userId⟩ hp1 hfind2, herase]

theorem like_toggle_fresh_feed_witness :
    ∃ db₁ r₁,
      toggleLike exC9db (some ⟨[], []⟩) 10 1 =
        .ok (db₁, r₁, true, likesCountIn exC9db 10 + 1) ∧
      db₁.posts = exC9db.posts ∧
      (∀ co tk resp, assembleFeedPage db₁ 1 co tk = some resp →
        ∀ fp ∈ resp.posts, fp.id = 10 →
          fp.isLiked = true ∧ fp.likesCount = likesCountIn exC9db 10 + 1) ∧
      (∀ r' : RedisState, ∃ r₂,
        toggleLike db₁ r' 10 1 = .ok (exC9db, r₂, false, likesCountIn exC9db 10)) :=
  like_toggle_fresh_feed exC9db (some ⟨[], []⟩) 10 1 ⟨10, 1, "x", none, 5⟩
    (by decide) (by decide)

/-- C10: updating a post with a falsy `content` (absent, `null`, or the
empty string) leaves every stored content unchanged — content can become
empty only if it already was; passing `imageUrl` explicitly as `null`
clears exactly the target post's media reference while omitting it keeps
every media reference; ids, authors and creation times of all posts are
unchanged by any update. -/
theorem update_content_frame (db : DB) (postId userId : Nat) (imageUrl : JStr) (p : Post)
    (hp : db.posts.find? (fun q => decide (q.id = postId)) = some p)
    (hown : p.authorId = userId) (contentv : JStr) (hfalsy : contentv.truthy = false) :
    ∃ db', updatePost db postId userId contentv imageUrl = .ok db' ∧
      db'.posts.map (·.content) = db.posts.map (·.content) ∧
      db'.posts.map (·.id) = db.posts.map (·.id) ∧
      db'.posts.map (·.authorId) = db.posts.map (·.authorId) ∧
      db'.posts.map (·.createdAt) = db.posts.map (·.createdAt) ∧
      (imageUrl = JStr.null →
        db'.posts.map (·.imageUrl) =
          db.posts.map (fun q => if q.id = postId then none else q.imageUrl)) ∧
      (imageUrl = JStr.undef → db'.posts.map (·.imageUrl) = db.posts.map (·.imageUrl)) ∧
      (∀ cv : JStr, ∀ db'', updatePost db postId userId cv imageUrl = .ok db'' →
        ∀ q' ∈ db''.posts, q'.content = "" → ∃ q ∈ db.posts, q.content = "") := by
  have hok : ∀ cv : JStr, updatePost db postId userId cv imageUrl =
      .ok { db with posts := db.posts.map (fun q =>
        if q.id = postId then
          { q with
            content := if cv.truthy then
                         match cv with | .str s => s | _ => q.content
                       else q.content
            imageUrl := match imageUrl with
                        | .undef => q.imageUrl
                        | .null => none
                        | .str s => some s }
        else q) } := by
    intro cv
    unfold updatePost
    simp only [hp]
    rw [if_pos hown]
  refine ⟨_, hok contentv, ?_, ?_, ?_, ?_, ?_, ?_, ?_⟩
  · rw [List.map_map]
    apply List.map_congr_left
    intro q _
    by_cases h : q.id = postId
    · simp [Function.comp, h, hfalsy]
    · simp [Function.comp, h]
  · rw [List.map_map]
    apply List.map_congr_left
    intro q _
    by_cases h : q.id = postId
    · simp [Function.comp, h]
    · simp [Function.comp, h]
  · rw [List.map_map]
    apply List.map_congr_left
    intro q _
    by_cases h : q.id = postId
    · simp [Function.comp, h]
    · simp [Function.comp, h]
  · rw [List.map_map]
    apply List.map_congr_left
    intro q _
    by_cases h : q.id = postId
    · simp [Function.comp, h]
    · simp [Function.comp, h]
  · intro himg
    subst himg
    rw [List.map_map]
    apply List.map_congr_left
    intro q _
    by_cases h : q.id = postId
    · simp [Function.comp, h]
    · simp [Function.comp, h]
  · intro himg
    subst himg
    rw [List.map_map]
    apply List.map_congr_left
    intro q _
    by_cases h : q.id = postId
    · simp [Function.comp, h]
    · simp [Function.comp, h]
  · intro cv db'' hupd q' hq' hempty
    rw [hok cv] at hupd
    injection hupd with hdb
    subst hdb
    obtain ⟨q, hq, rfl⟩ := List.mem_map.mp hq'
    by_cases h : q.id = postId
    · rw [if_pos h] at hempty
      cases hcv : cv.truthy with
      | false =>
          refine ⟨q, hq, ?_⟩
          simpa [hcv] using hempty
      | true =>
          cases cv with
          | undef => cases hcv
          | null => cases hcv
          | str s =>
              exfalso
              have hs : s ≠ "" := by simpa [JStr.truthy] using hcv
              exact hs (by simpa [hcv] using hempty)
    · rw [if_neg h] at hempty
      exact ⟨q, hq, hempty⟩

/-- A store with a single post owned by user 1, carrying both text and
an image. -/
def exC10db : DB :=
  { posts := [⟨10, 1, "x", some "i", 5⟩], follows := [], likes := [], comments := [] }

theorem update_content_frame_witness :
    ∃ db', updatePost exC10db 10 1 (JStr.str "") JStr.null = .ok db' ∧
      db'.posts.map (·.content) = exC10db.posts.map (·.content) ∧
      db'.posts.map (·.id) = exC10db.posts.map (·.id) ∧
      db'.posts.map (·.authorId) = exC10db.posts.map (·.authorId) ∧
      db'.posts.map (·.createdAt) = exC10db.posts.map (·.createdAt) ∧
      (JStr.null = JStr.null →
        db'.posts.map (·.imageUrl) =
          exC10db.posts.map (fun q => if q.id = 10 then none else q.imageUrl)) ∧
      (JStr.null = JStr.undef →
        db'.posts.map (·.imageUrl) = exC10db.posts.map (·.imageUrl)) ∧
      (∀ cv : JStr, ∀ db'', updatePost exC10db 10 1 cv JStr.null = .ok db'' →
        ∀ q' ∈ db''.posts, q'.content = "" → ∃ q ∈ exC10db.posts, q.content = "") :=
  update_content_frame exC10db 10 1 JStr.null ⟨10, 1, "x", some "i", 5⟩
    (by decide) rfl (JStr.str "") rfl

theorem cache_invalidation_scope_witness :
    ∃ d', (some (⟨[], []⟩ : RedisData) : RedisState) = some d' ∧ d'.feed = [] :=
  (cache_invalidation_scope exScenarioDb
      ⟨[(0, ⟨⟨[], false, none⟩, 300⟩)], []⟩ 1 10 5 "hi" JStr.undef 3 1).2
    { posts := [⟨1, 1, "b2", none, 1⟩, ⟨2, 2, "c1", none, 2⟩]
      follows := [⟨0, 1⟩, ⟨0, 2⟩]
      likes := []
      comments := [] }
    (some ⟨[], []⟩) rfl

end FbClone
